import Mathlib

/-!
Verification of the chunking / ingestion pipeline of
`python/embed_all_files.py` (functions `read_files`, `chunk_text`, `main`)
against its natural-language specification.

The Python functions are shallowly embedded as executable Lean definitions:
strings are Lean `String`s, `text.split()` is modelled character by
character, and the `while` loop of `chunk_text` is given both a
fuel-indexed operational semantics (`chunkLoopFuel`, where `none` means the
loop has not finished within the given number of iterations) and a closed
form for positive step (`chunkFrom`), related by `chunkLoopFuel_eq_chunkFrom`.
-/

namespace EmbedAllFiles

/-- Auxiliary scanner for `pySplit`: walks the character list keeping the
current in-progress word in `acc` (reversed), emitting a word at every
whitespace boundary.  Maximal runs of non-whitespace characters become
words; leading, trailing and repeated whitespace produce no empty words,
matching CPython `str.split()` called with no separator. -/
def splitWSAux : List Char → List Char → List String
  | [], acc => if acc = [] then [] else [acc.reverse.asString]
  | c :: cs, acc =>
    if c.isWhitespace then
      (if acc = [] then [] else [acc.reverse.asString]) ++ splitWSAux cs []
    else
      splitWSAux cs (c :: acc)

/-- `text.split()` from the Python source (whitespace splitting, no empty
words). -/
def pySplit (s : String) : List String :=
  splitWSAux s.data []

/-- `" ".join(ws)` from the Python source. -/
def joinWords (ws : List String) : String :=
  String.intercalate " " ws

/-- Python slice `words[i : i + max_words]` for a natural index `i`. -/
def sliceWindow (words : List String) (i max_words : Nat) : List String :=
  (words.drop i).take max_words

/-- Fuel-indexed semantics of the loop

      while i < len(words):
          chunks.append(" ".join(words[i:i+max_words]))
          i += max_words - overlap

inside `chunk_text`.  The result is `none` when the loop has not terminated
within `fuel` iterations, so `(∀ fuel, ... = none)` states divergence. -/
def chunkLoopFuel (words : List String) (max_words step : Nat) :
    Nat → Nat → Option (List String)
  | 0, _ => none
  | fuel + 1, i =>
    if i < words.length then
      (chunkLoopFuel words max_words step fuel (i + step)).map
        (fun rest => joinWords (sliceWindow words i max_words) :: rest)
    else
      some []

/-- `chunk_text(text, max_words, overlap)` from the Python source (the
source's default arguments are `max_words = 600`, `overlap = 100`).  The
`while` loop is run with fuel `words.length + 1`, which is proven
sufficient whenever the step `max_words - overlap` is positive
(`chunk_text_eq_chunkFrom`); a `none` result means the source loop did not
finish, and for overlap = max_words it never finishes at any fuel
(`chunkLoopFuel_step_zero`). -/
def chunk_text (text : String) (max_words overlap : Nat) :
    Option (List String) :=
  let words := pySplit text
  if words.length ≤ max_words then some [text]
  else chunkLoopFuel words max_words (max_words - overlap) (words.length + 1) 0

/-- Closed form of the `chunk_text` loop, defined for positive step (the
guard `0 < step` makes the recursion well-founded; `chunkLoopFuel_eq_chunkFrom`
shows it agrees with the loop semantics there). -/
def chunkFrom (words : List String) (max_words step i : Nat) : List String :=
  if _h : 0 < step ∧ i < words.length then
    joinWords (sliceWindow words i max_words) :: chunkFrom words max_words step (i + step)
  else []
termination_by words.length - i
decreasing_by simp_wf; omega

/-- The word windows underlying `chunkFrom`: the same recursion, before the
words of each window are joined back into a string. -/
def windowsFrom (words : List String) (max_words step i : Nat) : List (List String) :=
  if _h : 0 < step ∧ i < words.length then
    sliceWindow words i max_words :: windowsFrom words max_words step (i + step)
  else []
termination_by words.length - i
decreasing_by simp_wf; omega

/-- De-overlapping a window list: the first window contributes all of its
words, every later window only the words after the first `overlap` ones. -/
def deOverlap (overlap : Nat) : List (List String) → List String
  | [] => []
  | w :: ws => w ++ (ws.map (List.drop overlap)).flatten

/-- The word spans of the chunks returned by `chunk_text`: in the short case
the single chunk is the whole text, whose span is the full word list; in the
long case the spans are the loop's word windows. -/
def chunkSpans (text : String) (max_words overlap : Nat) : List (List String) :=
  if (pySplit text).length ≤ max_words then [pySplit text]
  else windowsFrom (pySplit text) max_words (max_words - overlap) 0

/-- The chunk list produced with the source's default parameters
max_words = 600, overlap = 100, as used by `main` (step 500 is positive, so
the loop always terminates; `chunk_text_default_eq` relates this to
`chunk_text`). -/
def chunks600 (txt : String) : List String :=
  (chunk_text txt 600 100).getD []

/-- One output record built by `main`: the JSON object
`{"id": ..., "text": ..., "meta": {"repo": ..., "path": ..., "chunk": ...}}`.
The embedding vector attached afterwards comes from the external model
capability and carries no information relevant to the claims, so it is not
modelled. -/
structure Entry where
  id : String
  text : String
  repo : String
  path : String
  chunk : Nat
deriving DecidableEq

/-- The id `f"{repo}::{fname}::chunk{i}"` assigned in `main`. -/
def entryId (repo fname : String) (i : Nat) : String :=
  repo ++ "::" ++ fname ++ "::chunk" ++ Nat.repr i

/-- The entries `main` builds for one file: one per chunk of
`chunk_text(txt or "")`, enumerated from 0.  (For a string, Python's
`txt or ""` is `txt` itself up to replacing the empty string by the empty
string, so it is modelled as `txt`.) -/
def entriesFor (repo fname txt : String) : List Entry :=
  (chunks600 txt).enum.map (fun p =>
    { id := entryId repo fname p.1, text := p.2,
      repo := repo, path := fname, chunk := p.1 })

/-- All entries `main` accumulates over the files returned by `read_files`. -/
def buildEntries (repo : String) (files : List (String × String)) : List Entry :=
  files.flatMap (fun f => entriesFor repo f.1 f.2)

/-- Result of one `Path.read_text(errors='ignore')` call: either the decoded
text, or a raised exception (an OS-level read failure; pure decode errors are
suppressed by errors='ignore'). -/
inductive ReadOutcome where
  | ok (text : String)
  | unreadable
deriving DecidableEq

/-- A regular file met by the `rglob` walk: its path relative to the root and
its read outcome. -/
structure FSFile where
  relpath : String
  content : ReadOutcome
deriving DecidableEq

/-- The filesystem state `read_files` runs against: the root is a single
file, or a directory whose recursive walk lists the given regular files in
this (deterministic) order. -/
inductive Root where
  | file (name : String) (content : ReadOutcome)
  | dir (files : List FSFile)
deriving DecidableEq

/-- Text obtained for one file in the directory branch of `read_files`: the
bare `except:` substitutes the empty string when the read raises. -/
def readOutcomeText : ReadOutcome → String
  | .ok s => s
  | .unreadable => ""

/-- `read_files(root)` from the Python source.  In the single-file branch the
read is not guarded by try/except, so a raised read propagates
(`Except.error`); in the directory branch every file is guarded. -/
def read_files : Root → Except Unit (List (String × String))
  | .file name c =>
    match c with
    | .ok s => Except.ok [(name, s)]
    | .unreadable => Except.error ()
  | .dir files =>
    Except.ok (files.map (fun f => (f.relpath, readOutcomeText f.content)))

/-- The entry list `main` writes to the output file for a given root and
corpus id (the `repo` argument). -/
def mainEntries (repo : String) (root : Root) : Except Unit (List Entry) :=
  (read_files root).map (fun files => buildEntries repo files)

/-- The report `main` prints at the end: `f"Wrote {len(entries)} entries"`. -/
def mainMessage (repo : String) (root : Root) : Except Unit String :=
  (mainEntries repo root).map
    (fun entries => "Wrote " ++ Nat.repr entries.length ++ " entries")

/-- The files of the corpus whose read failed and was replaced by empty
content (the spec's UnreadableFile events). -/
def skippedFiles : Root → List String
  | .file _ _ => []
  | .dir files =>
    (files.filter (fun f => f.content == ReadOutcome.unreadable)).map
      (fun f => f.relpath)

/-- Numeric value of a decimal digit character. -/
def decDigit (c : Char) : Nat := c.toNat - 48

/-- Decimal value of a digit string, used to invert `Nat.repr`. -/
def decodeDigits (l : List Char) : Nat :=
  l.foldl (fun a c => 10 * a + decDigit c) 0

/-! ### Basic lemmas about the loop semantics -/

theorem chunkLoopFuel_eq_chunkFrom (words : List String) (max_words step : Nat)
    (hstep : 0 < step) :
    ∀ (fuel i : Nat), words.length ≤ i + fuel * step →
      chunkLoopFuel words max_words step (fuel + 1) i =
        some (chunkFrom words max_words step i) := by
  intro fuel
  induction fuel with
  | zero =>
    intro i hi
    rw [chunkLoopFuel, chunkFrom]
    simp only [Nat.zero_mul, Nat.add_zero] at hi
    rw [if_neg (by omega), dif_neg (by omega)]
  | succ fuel ih =>
    intro i hi
    rw [chunkLoopFuel]
    by_cases hlt : i < words.length
    · rw [if_pos hlt, ih (i + step) (by rw [Nat.succ_mul] at hi; omega)]
      conv_rhs => rw [chunkFrom]
      rw [dif_pos ⟨hstep, hlt⟩]
      rfl
    · rw [if_neg hlt, chunkFrom, dif_neg (by tauto)]

theorem chunk_text_eq_chunkFrom (text : String) (max_words overlap : Nat)
    (hov : overlap < max_words)
    (hlong : max_words < (pySplit text).length) :
    chunk_text text max_words overlap =
      some (chunkFrom (pySplit text) max_words (max_words - overlap) 0) := by
  have hstep : 0 < max_words - overlap := by omega
  rw [chunk_text]
  simp only [if_neg (by omega : ¬ (pySplit text).length ≤ max_words)]
  exact chunkLoopFuel_eq_chunkFrom (pySplit text) max_words (max_words - overlap) hstep
    (pySplit text).length 0
    (by have := Nat.le_mul_of_pos_right (pySplit text).length hstep; omega)

theorem chunkLoopFuel_step_zero (words : List String) (max_words : Nat) :
    ∀ (fuel i : Nat), i < words.length →
      chunkLoopFuel words max_words 0 fuel i = none := by
  intro fuel
  induction fuel with
  | zero => intro i _; rfl
  | succ fuel ih =>
    intro i hi
    rw [chunkLoopFuel, if_pos hi, Nat.add_zero, ih i hi]
    rfl

theorem chunk_text_short (text : String) (max_words overlap : Nat)
    (hshort : (pySplit text).length ≤ max_words) :
    chunk_text text max_words overlap = some [text] := by
  rw [chunk_text]
  exact if_pos hshort

theorem chunk_text_some_chunks600 (txt : String) :
    chunk_text txt 600 100 = some (chunks600 txt) := by
  rw [chunks600]
  by_cases h : (pySplit txt).length ≤ 600
  · rw [chunk_text_short txt 600 100 h]
    rfl
  · rw [chunk_text_eq_chunkFrom txt 600 100 (by omega) (by omega)]
    rfl

/-! ### Claim C4: short texts come back as a single verbatim chunk -/

/-- Claim C4: for every text whose whitespace-split word count is at most
max_words, chunk_text returns exactly one chunk equal to the input text
(for any overlap). -/
theorem chunk_text_short_single_chunk (text : String) (max_words overlap : Nat)
    (hshort : (pySplit text).length ≤ max_words) :
    chunk_text text max_words overlap = some [text] :=
  chunk_text_short text max_words overlap hshort

/-- Witness for claim C4, at the empty source text: its word count is 0 and
chunk_text (with the source's default parameters) yields the single empty
chunk. -/
theorem chunk_text_short_single_chunk_witness :
    (pySplit "").length ≤ 600 ∧ chunk_text "" 600 100 = some [""] :=
  ⟨by decide, chunk_text_short_single_chunk "" 600 100 (by decide)⟩

/-! ### Claim C1: the five-word end-to-end scenario -/

/-- Counterexample for claim C1: on "one two three four five" with
max_words = 2 and overlap = 1, chunk_text does not return the four chunks
claimed by the spec: the loop keeps running while the window start is below
the word count, so a fifth trailing chunk "five" is also produced. -/
theorem chunk_text_scenario_not_four_chunks :
    chunk_text "one two three four five" 2 1 ≠
      some ["one two", "two three", "three four", "four five"] := by
  decide

/-- Claim C1 (amended): chunk("one two three four five", max_words = 2,
overlap = 1) returns exactly the five chunks "one two", "two three",
"three four", "four five", "five" in that order — the four sliding windows
of the spec's scenario followed by a trailing one-word window starting at
the last word. -/
theorem chunk_text_scenario_five_chunks :
    chunk_text "one two three four five" 2 1 =
      some ["one two", "two three", "three four", "four five", "five"] := by
  decide

/-! ### Claim C2: overlap = max_words makes the loop diverge -/

/-- Claim C2: contrary to the spec, chunk_text raises no ConfigurationError
for overlap = max_words: on a text of more than max_words words the source's
while loop never advances its index (step = max_words - overlap = 0), so it
never terminates — at every fuel bound the loop is still running, and in
particular the fuel-complete run of chunk_text yields no output. -/
theorem chunk_text_overlap_eq_max_diverges :
    (∀ fuel : Nat, chunkLoopFuel (pySplit "a b c d e f") 5 (5 - 5) fuel 0 = none) ∧
      chunk_text "a b c d e f" 5 5 = none := by
  constructor
  · intro fuel
    exact chunkLoopFuel_step_zero (pySplit "a b c d e f") 5 fuel 0 (by decide)
  · rw [chunk_text]
    rw [if_neg (by decide)]
    exact chunkLoopFuel_step_zero (pySplit "a b c d e f") 5 _ 0 (by decide)

/-! ### Window lemmas for the long case -/

theorem chunkFrom_eq_map_join (words : List String) (max_words step i : Nat) :
    chunkFrom words max_words step i =
      (windowsFrom words max_words step i).map joinWords := by
  rw [chunkFrom, windowsFrom]
  by_cases h : 0 < step ∧ i < words.length
  · rw [dif_pos h, dif_pos h, List.map_cons,
      chunkFrom_eq_map_join words max_words step (i + step)]
  · rw [dif_neg h, dif_neg h]
    rfl
termination_by words.length - i
decreasing_by simp_wf; omega

theorem windowsFrom_getElem (words : List String) (max_words step : Nat)
    (hstep : 0 < step) :
    ∀ (k i : Nat),
      (windowsFrom words max_words step i)[k]? =
        if i + k * step < words.length then
          some (sliceWindow words (i + k * step) max_words)
        else none := by
  intro k
  induction k with
  | zero =>
    intro i
    simp only [Nat.zero_mul, Nat.add_zero]
    rw [windowsFrom]
    by_cases h : i < words.length
    · rw [dif_pos ⟨hstep, h⟩, List.getElem?_cons_zero, if_pos h]
    · rw [dif_neg (by tauto), List.getElem?_nil, if_neg h]
  | succ k ih =>
    intro i
    rw [windowsFrom]
    by_cases h : i < words.length
    · rw [dif_pos ⟨hstep, h⟩, List.getElem?_cons_succ, ih (i + step)]
      have e : i + step + k * step = i + (k + 1) * step := by
        rw [Nat.succ_mul]; omega
      rw [e]
    · rw [dif_neg (by tauto), List.getElem?_nil,
        if_neg (by
          have := Nat.le_add_right i ((k + 1) * step)
          omega)]

theorem windowsFrom_length (words : List String) (max_words step : Nat)
    (hstep : 0 < step) (i : Nat) :
    (windowsFrom words max_words step i).length =
      (words.length - i + step - 1) / step := by
  rw [windowsFrom]
  by_cases h : i < words.length
  · rw [dif_pos ⟨hstep, h⟩, List.length_cons,
      windowsFrom_length words max_words step hstep (i + step)]
    by_cases hc : step < words.length - i
    · have e1 : words.length - (i + step) + step - 1 =
          words.length - i - 1 := by omega
      have e2 : words.length - i + step - 1 =
          words.length - i - 1 + step := by omega
      rw [e1, e2, Nat.add_div_right _ hstep]
    · have e1 : words.length - (i + step) + step - 1 = step - 1 := by omega
      rw [e1, Nat.div_eq_of_lt (by omega),
        @Nat.div_eq_of_lt_le 1 step (words.length - i + step - 1)
          (by omega) (by omega)]
  · rw [dif_neg (by tauto)]
    have e : words.length - i = 0 := by omega
    simp only [List.length_nil, e]
    exact (Nat.div_eq_of_lt (by omega)).symm
termination_by words.length - i
decreasing_by simp_wf; omega

theorem flatten_map_drop_windowsFrom (words : List String)
    (max_words step overlap : Nat) (hstep : 0 < step)
    (hsum : overlap + step = max_words) (i : Nat) :
    ((windowsFrom words max_words step i).map (List.drop overlap)).flatten =
      words.drop (i + overlap) := by
  rw [windowsFrom]
  by_cases h : i < words.length
  · rw [dif_pos ⟨hstep, h⟩, List.map_cons, List.flatten_cons,
      flatten_map_drop_windowsFrom words max_words step overlap hstep hsum
        (i + step)]
    rw [sliceWindow, List.drop_take, List.drop_drop]
    have e1 : max_words - overlap = step := by omega
    have e2 : words.drop (i + step + overlap) =
        (words.drop (i + overlap)).drop step := by
      rw [List.drop_drop]
      have e3 : i + overlap + step = i + step + overlap := by omega
      rw [e3]
    rw [e1, e2]
    exact List.take_append_drop step (words.drop (i + overlap))
  · rw [dif_neg (by tauto)]
    simp only [List.map_nil, List.flatten_nil]
    exact (List.drop_eq_nil_of_le (by omega)).symm
termination_by words.length - i
decreasing_by simp_wf; omega

/-! ### Claim C3: sliding windows and exact-once coverage -/

/-- Claim C3: for 0 ≤ overlap < max_words, the chunks returned by chunk_text
are (the verbatim text in the short case, otherwise) the single-space joins
of the word spans in chunkSpans; the k-th span is the sliding window of
max_words words starting at word k * (max_words - overlap), i.e. the windows
advance by max_words - overlap words (the final one may be shorter); and
de-overlapping the spans (the first span contributes all its words, every
later span its words after the first overlap ones) reproduces every word of
the original text exactly once, in order. -/
theorem chunk_text_sliding_window_cover (text : String)
    (max_words overlap : Nat) (hov : overlap < max_words) :
    chunk_text text max_words overlap =
        some (if (pySplit text).length ≤ max_words then [text]
          else (chunkSpans text max_words overlap).map joinWords)
      ∧ (∀ k : Nat,
          (chunkSpans text max_words overlap)[k]? =
            if k < (chunkSpans text max_words overlap).length then
              some (sliceWindow (pySplit text)
                (k * (max_words - overlap)) max_words)
            else none)
      ∧ deOverlap overlap (chunkSpans text max_words overlap) = pySplit text := by
  have hstep : 0 < max_words - overlap := by omega
  by_cases hshort : (pySplit text).length ≤ max_words
  · have hspans : chunkSpans text max_words overlap = [pySplit text] := by
      rw [chunkSpans, if_pos hshort]
    refine ⟨?_, ?_, ?_⟩
    · rw [if_pos hshort]
      exact chunk_text_short text max_words overlap hshort
    · intro k
      rw [hspans]
      cases k with
      | zero =>
        rw [List.getElem?_cons_zero, if_pos (by simp), sliceWindow,
          Nat.zero_mul, List.drop_zero, List.take_of_length_le hshort]
      | succ k =>
        rw [List.getElem?_cons_succ, List.getElem?_nil,
          if_neg (by simp only [List.length_singleton]; omega)]
    · rw [hspans]
      simp [deOverlap]
  · have hspans : chunkSpans text max_words overlap =
        windowsFrom (pySplit text) max_words (max_words - overlap) 0 := by
      rw [chunkSpans, if_neg hshort]
    refine ⟨?_, ?_, ?_⟩
    · rw [if_neg hshort, hspans,
        chunk_text_eq_chunkFrom text max_words overlap hov (by omega),
        chunkFrom_eq_map_join]
    · intro k
      rw [hspans]
      have h0 := windowsFrom_getElem (pySplit text) max_words
        (max_words - overlap) hstep k 0
      rw [Nat.zero_add] at h0
      by_cases hk : k <
          (windowsFrom (pySplit text) max_words (max_words - overlap) 0).length
      · rw [if_pos hk]
        by_cases hw : k * (max_words - overlap) < (pySplit text).length
        · rw [h0, if_pos hw]
        · exfalso
          have hnone : (windowsFrom (pySplit text) max_words
              (max_words - overlap) 0)[k]? = none := by
            rw [h0, if_neg hw]
          rw [List.getElem?_eq_none_iff] at hnone
          omega
      · rw [if_neg hk]
        exact List.getElem?_eq_none (by omega)
    · rw [hspans]
      have h0 : 0 < (pySplit text).length := by omega
      rw [windowsFrom, dif_pos ⟨hstep, h0⟩, deOverlap, Nat.zero_add,
        flatten_map_drop_windowsFrom (pySplit text) max_words
          (max_words - overlap) overlap hstep (by omega) (max_words - overlap),
        sliceWindow, List.drop_zero]
      have e : max_words - overlap + overlap = max_words := by omega
      rw [e]
      exact List.take_append_drop max_words (pySplit text)

/-- Witness for claim C3 at the spec's own scenario input. -/
theorem chunk_text_sliding_window_cover_witness :
    1 < 2 ∧
      (chunk_text "one two three four five" 2 1 =
          some (if (pySplit "one two three four five").length ≤ 2 then
              ["one two three four five"]
            else (chunkSpans "one two three four five" 2 1).map joinWords)
        ∧ (∀ k : Nat,
            (chunkSpans "one two three four five" 2 1)[k]? =
              if k < (chunkSpans "one two three four five" 2 1).length then
                some (sliceWindow (pySplit "one two three four five")
                  (k * (2 - 1)) 2)
              else none)
        ∧ deOverlap 1 (chunkSpans "one two three four five" 2 1) =
            pySplit "one two three four five") :=
  ⟨by decide, chunk_text_sliding_window_cover "one two three four five" 2 1
    (by decide)⟩

/-! ### Claim C10: chunk count and windows in the long case -/

/-- Claim C10: for a text of W words with W > max_words and
0 ≤ overlap < max_words (step = max_words - overlap), chunk_text returns
exactly ⌈W / step⌉ = (W + step - 1) / step chunks; a chunk exists at index k
exactly when k * step < W, and it is the single-space join of the window of
max_words words starting at word k * step — so whitespace runs are collapsed
in every chunk, unlike the short single-chunk case which is verbatim, and the
trailing windows may be entirely contained in the preceding chunk. -/
theorem chunk_text_long_chunk_count (text : String) (max_words overlap : Nat)
    (hov : overlap < max_words)
    (hlong : max_words < (pySplit text).length) :
    chunk_text text max_words overlap =
        some (chunkFrom (pySplit text) max_words (max_words - overlap) 0)
      ∧ (chunkFrom (pySplit text) max_words (max_words - overlap) 0).length =
          ((pySplit text).length + (max_words - overlap) - 1) /
            (max_words - overlap)
      ∧ ∀ k : Nat,
          (chunkFrom (pySplit text) max_words (max_words - overlap) 0)[k]? =
            if k * (max_words - overlap) < (pySplit text).length then
              some (joinWords (sliceWindow (pySplit text)
                (k * (max_words - overlap)) max_words))
            else none := by
  have hstep : 0 < max_words - overlap := by omega
  refine ⟨chunk_text_eq_chunkFrom text max_words overlap hov hlong, ?_, ?_⟩
  · rw [chunkFrom_eq_map_join, List.length_map,
      windowsFrom_length (pySplit text) max_words (max_words - overlap) hstep 0,
      Nat.sub_zero]
  · intro k
    rw [chunkFrom_eq_map_join, List.getElem?_map]
    have h0 := windowsFrom_getElem (pySplit text) max_words
      (max_words - overlap) hstep k 0
    rw [Nat.zero_add] at h0
    rw [h0]
    by_cases hw : k * (max_words - overlap) < (pySplit text).length
    · rw [if_pos hw, if_pos hw]
      rfl
    · rw [if_neg hw, if_neg hw]
      rfl

/-- Witness for claim C10 at the five-word scenario input (W = 5,
max_words = 2, overlap = 1, step = 1, so ⌈5 / 1⌉ = 5 chunks). -/
theorem chunk_text_long_chunk_count_witness :
    1 < 2 ∧ 2 < (pySplit "one two three four five").length ∧
      (chunk_text "one two three four five" 2 1 =
          some (chunkFrom (pySplit "one two three four five") 2 (2 - 1) 0)
        ∧ (chunkFrom (pySplit "one two three four five") 2 (2 - 1) 0).length =
            ((pySplit "one two three four five").length + (2 - 1) - 1) / (2 - 1)
        ∧ ∀ k : Nat,
            (chunkFrom (pySplit "one two three four five") 2 (2 - 1) 0)[k]? =
              if k * (2 - 1) < (pySplit "one two three four five").length then
                some (joinWords (sliceWindow
                  (pySplit "one two three four five") (k * (2 - 1)) 2))
              else none) :=
  ⟨by decide, by decide,
    chunk_text_long_chunk_count "one two three four five" 2 1
      (by decide) (by decide)⟩

/-! ### Decimal representation lemmas, to invert the chunk index in an id -/

theorem decDigit_digitChar : ∀ d : Nat, d < 10 → decDigit (Nat.digitChar d) = d := by
  decide

theorem toDigitsCore_eq_toDigits_append (n : Nat) :
    ∀ (f : Nat) (ds : List Char), n < f →
      Nat.toDigitsCore 10 f n ds = Nat.toDigits 10 n ++ ds := by
  induction n using Nat.strong_induction_on with
  | _ n ih =>
    intro f ds hf
    cases f with
    | zero => omega
    | succ f =>
      simp only [Nat.toDigitsCore, Nat.toDigits]
      by_cases hdiv : n / 10 = 0
      · rw [if_pos hdiv, if_pos hdiv]
        rfl
      · have hlt : n / 10 < n := by omega
        rw [if_neg hdiv, if_neg hdiv,
          ih (n / 10) hlt f (Nat.digitChar (n % 10) :: ds) (by omega),
          ih (n / 10) hlt n [Nat.digitChar (n % 10)] (by omega),
          List.append_assoc]
        rfl

theorem decodeDigits_toDigits (n : Nat) :
    decodeDigits (Nat.toDigits 10 n) = n := by
  induction n using Nat.strong_induction_on with
  | _ n ih =>
    by_cases h : n < 10
    · have h0 : Nat.toDigits 10 n = [Nat.digitChar (n % 10)] := by
        simp only [Nat.toDigits, Nat.toDigitsCore]
        rw [if_pos (by omega)]
      rw [h0, Nat.mod_eq_of_lt h, decodeDigits]
      simp only [List.foldl_cons, List.foldl_nil]
      rw [decDigit_digitChar n h]
      omega
    · have h1 : Nat.toDigits 10 n =
          Nat.toDigitsCore 10 n (n / 10) [Nat.digitChar (n % 10)] := by
        simp only [Nat.toDigits, Nat.toDigitsCore]
        rw [if_neg (by omega)]
      have h0 : Nat.toDigits 10 n =
          Nat.toDigits 10 (n / 10) ++ [Nat.digitChar (n % 10)] := by
        rw [h1, toDigitsCore_eq_toDigits_append (n / 10) n
          [Nat.digitChar (n % 10)] (by omega)]
      have ihd := ih (n / 10) (by omega)
      rw [decodeDigits] at ihd
      rw [h0, decodeDigits, List.foldl_append, ihd]
      simp only [List.foldl_cons, List.foldl_nil]
      rw [decDigit_digitChar (n % 10) (by omega)]
      omega

theorem repr_injective (a b : Nat) (h : Nat.repr a = Nat.repr b) : a = b := by
  have hs : (Nat.toDigits 10 a).asString = (Nat.toDigits 10 b).asString := h
  have hd := List.asString_inj.mp hs
  have := congrArg decodeDigits hd
  rwa [decodeDigits_toDigits, decodeDigits_toDigits] at this

/-! ### Parsing an entry id back into its components -/

theorem append_colon_inj :
    ∀ (a b l m : List Char),
      (∀ c ∈ a, c ≠ ':') → (∀ c ∈ b, c ≠ ':') →
      a ++ ':' :: l = b ++ ':' :: m → a = b ∧ l = m := by
  intro a
  induction a with
  | nil =>
    intro b l m _ hb heq
    cases b with
    | nil =>
      simp only [List.nil_append, List.cons.injEq] at heq
      exact ⟨rfl, heq.2⟩
    | cons y ys =>
      exfalso
      simp only [List.nil_append, List.cons_append, List.cons.injEq] at heq
      exact hb y (List.mem_cons_self y ys) heq.1.symm
  | cons x xs ih =>
    intro b l m ha hb heq
    cases b with
    | nil =>
      exfalso
      simp only [List.cons_append, List.nil_append, List.cons.injEq] at heq
      exact ha x (List.mem_cons_self x xs) heq.1
    | cons y ys =>
      simp only [List.cons_append, List.cons.injEq] at heq
      obtain ⟨hxy, heq2⟩ := heq
      obtain ⟨h1, h2⟩ := ih ys l m
        (fun c hc => ha c (List.mem_cons_of_mem x hc))
        (fun c hc => hb c (List.mem_cons_of_mem y hc))
        heq2
      exact ⟨by rw [hxy, h1], h2⟩

theorem entryId_data (r p : String) (i : Nat) :
    (entryId r p i).data =
      r.data ++ ':' :: ':' ::
        (p.data ++ ':' :: ':' ::
          ('c' :: 'h' :: 'u' :: 'n' :: 'k' :: Nat.toDigits 10 i)) := by
  have h2 : ("::" : String).data = [':', ':'] := rfl
  have h7 : ("::chunk" : String).data = [':', ':', 'c', 'h', 'u', 'n', 'k'] := rfl
  have hrepr : (Nat.repr i).data = Nat.toDigits 10 i := rfl
  rw [entryId, String.data_append, String.data_append, String.data_append,
    String.data_append, h2, h7, hrepr]
  simp

theorem entryId_inj_of_colon_free (r p r2 p2 : String) (i i2 : Nat)
    (hr : ':' ∉ r.data) (hp : ':' ∉ p.data)
    (hr2 : ':' ∉ r2.data) (hp2 : ':' ∉ p2.data)
    (heq : entryId r p i = entryId r2 p2 i2) :
    r = r2 ∧ p = p2 ∧ i = i2 := by
  have hd := congrArg String.data heq
  rw [entryId_data, entryId_data] at hd
  obtain ⟨hre, hrest⟩ := append_colon_inj r.data r2.data _ _
    (fun c hc hceq => hr (hceq ▸ hc)) (fun c hc hceq => hr2 (hceq ▸ hc)) hd
  simp only [List.cons.injEq, true_and] at hrest
  obtain ⟨hpe, hrest2⟩ := append_colon_inj p.data p2.data _ _
    (fun c hc hceq => hp (hceq ▸ hc)) (fun c hc hceq => hp2 (hceq ▸ hc)) hrest
  simp only [List.cons.injEq, true_and] at hrest2
  refine ⟨String.ext hre, String.ext hpe, ?_⟩
  have := congrArg decodeDigits hrest2
  rwa [decodeDigits_toDigits, decodeDigits_toDigits] at this

/-! ### Entry construction lemmas -/

theorem entriesFor_mem (repo fname txt : String) (e : Entry)
    (he : e ∈ entriesFor repo fname txt) :
    e.id = entryId repo fname e.chunk ∧ e.repo = repo ∧ e.path = fname := by
  rw [entriesFor] at he
  obtain ⟨q, _, rfl⟩ := List.mem_map.mp he
  exact ⟨rfl, rfl, rfl⟩

theorem buildEntries_cons (repo : String) (f : String × String)
    (fs : List (String × String)) :
    buildEntries repo (f :: fs) =
      entriesFor repo f.1 f.2 ++ buildEntries repo fs := by
  rw [buildEntries, buildEntries, List.flatMap_cons]

theorem buildEntries_mem (repo : String) (files : List (String × String))
    (e : Entry) (he : e ∈ buildEntries repo files) :
    e.id = entryId repo e.path e.chunk ∧ e.repo = repo
      ∧ e.path ∈ files.map Prod.fst := by
  rw [buildEntries] at he
  obtain ⟨f, hf, hef⟩ := List.mem_flatMap.mp he
  obtain ⟨h1, h2, h3⟩ := entriesFor_mem repo f.1 f.2 e hef
  refine ⟨by rw [h3]; exact h1, h2, ?_⟩
  rw [h3]
  exact List.mem_map.mpr ⟨f, hf, rfl⟩

theorem entriesFor_map_chunk (repo fname txt : String) :
    (entriesFor repo fname txt).map (fun e => e.chunk) =
      List.range (chunks600 txt).length := by
  rw [entriesFor, List.map_map]
  exact List.enum_map_fst (chunks600 txt)

theorem entriesFor_map_text (repo fname txt : String) :
    (entriesFor repo fname txt).map (fun e => e.text) = chunks600 txt := by
  rw [entriesFor, List.map_map]
  exact List.enum_map_snd (chunks600 txt)

/-! ### Claim C5: the id scheme -/

/-- Counterexample for claim C5: two distinct (corpus_id, path, chunk_index)
triples produce the same id when one path embeds the separator — both sides
here evaluate to "r::x::chunk::chunk2". -/
theorem entryId_not_injective :
    entryId "r" "x::chunk" 2 = entryId "r::x" "chunk" 2 ∧
      ("r", "x::chunk", (2 : Nat)) ≠ ("r::x", "chunk", (2 : Nat)) := by
  constructor
  · decide
  · decide

/-- Claim C5 (amended): every entry built during ingestion has
id = corpus_id ++ "::" ++ path ++ "::chunk" ++ chunk_index and records its
corpus id, so ids are deterministically derived from the triple; distinct
triples can collide when a corpus id or path contains the separator
character, but triples whose corpus id and path are free of the character
':' always receive distinct ids. -/
theorem buildEntries_id_deterministic_unique (repo : String)
    (files : List (String × String)) (e : Entry)
    (he : e ∈ buildEntries repo files)
    (r p r2 p2 : String) (i i2 : Nat)
    (hr : ':' ∉ r.data) (hp : ':' ∉ p.data)
    (hr2 : ':' ∉ r2.data) (hp2 : ':' ∉ p2.data)
    (heq : entryId r p i = entryId r2 p2 i2) :
    e.id = entryId repo e.path e.chunk ∧ e.repo = repo
      ∧ r = r2 ∧ p = p2 ∧ i = i2 := by
  obtain ⟨h1, h2, _⟩ := buildEntries_mem repo files e he
  obtain ⟨h3, h4, h5⟩ :=
    entryId_inj_of_colon_free r p r2 p2 i i2 hr hp hr2 hp2 heq
  exact ⟨h1, h2, h3, h4, h5⟩

/-- Witness for claim C5: the single entry built from a one-file corpus, and
the id uniqueness applied to a colon-free triple. -/
theorem buildEntries_id_deterministic_unique_witness :
    (({ id := entryId "r" "f" 0, text := "w", repo := "r", path := "f",
          chunk := 0 } : Entry) ∈ buildEntries "r" [("f", "w")])
      ∧ ':' ∉ ("a" : String).data ∧ ':' ∉ ("b" : String).data
      ∧ (entryId "r" "f" 0 = entryId "r" "f" 0 ∧ ("r" : String) = "r"
          ∧ ("a" : String) = "a" ∧ ("b" : String) = "b" ∧ (0 : Nat) = 0) :=
  ⟨by decide, by decide, by decide,
    buildEntries_id_deterministic_unique "r" [("f", "w")]
      { id := entryId "r" "f" 0, text := "w", repo := "r", path := "f",
        chunk := 0 }
      (by decide) "a" "b" "a" "b" 0 0
      (by decide) (by decide) (by decide) (by decide) rfl⟩

/-! ### Claim C6: chunk indices are contiguous from 0 per path -/

/-- Claim C6: within one corpus ingestion whose walked paths are distinct,
the entries produced for a given path carry exactly the chunk indices
0, 1, ..., n-1 in order (n the number of chunks of that file), and their
texts are the chunks in the order the chunker produced them. -/
theorem buildEntries_chunk_indices_contiguous (repo : String)
    (files : List (String × String)) (fname txt : String)
    (hmem : (fname, txt) ∈ files)
    (hnodup : (files.map Prod.fst).Nodup) :
    ((buildEntries repo files).filter (fun e => e.path == fname)).map
        (fun e => e.chunk) = List.range (chunks600 txt).length
      ∧ ((buildEntries repo files).filter (fun e => e.path == fname)).map
        (fun e => e.text) = chunks600 txt := by
  induction files with
  | nil => cases hmem
  | cons f fs ih =>
    simp only [List.map_cons, List.nodup_cons] at hnodup
    rcases List.mem_cons.mp hmem with hcase | hcase
    · have hf1 : f.1 = fname := by rw [← hcase]
      have hf2 : f.2 = txt := by rw [← hcase]
      have hfilter1 : (entriesFor repo f.1 f.2).filter
          (fun e => e.path == fname) = entriesFor repo f.1 f.2 := by
        rw [List.filter_eq_self]
        intro e hee
        rw [beq_iff_eq, (entriesFor_mem repo f.1 f.2 e hee).2.2, hf1]
      have hfilter2 : (buildEntries repo fs).filter
          (fun e => e.path == fname) = [] := by
        rw [List.filter_eq_nil_iff]
        intro e hee
        have hpath := (buildEntries_mem repo fs e hee).2.2
        rw [beq_iff_eq]
        intro hcontra
        apply hnodup.1
        rw [hf1, ← hcontra]
        exact hpath
      rw [buildEntries_cons, List.filter_append, hfilter1, hfilter2,
        List.append_nil, hf1, hf2]
      exact ⟨entriesFor_map_chunk repo fname txt,
        entriesFor_map_text repo fname txt⟩
    · have hne : ¬ f.1 = fname := by
        intro hcontra
        apply hnodup.1
        rw [hcontra]
        exact List.mem_map.mpr ⟨(fname, txt), hcase, rfl⟩
      have hfilter1 : (entriesFor repo f.1 f.2).filter
          (fun e => e.path == fname) = [] := by
        rw [List.filter_eq_nil_iff]
        intro e hee
        rw [beq_iff_eq, (entriesFor_mem repo f.1 f.2 e hee).2.2]
        exact hne
      rw [buildEntries_cons, List.filter_append, hfilter1, List.nil_append]
      exact ih hcase hnodup.2

/-- Witness for claim C6: a two-file corpus; the entries for path "a" carry
exactly the chunk index 0 and the single chunk of its text. -/
theorem buildEntries_chunk_indices_contiguous_witness :
    (("a", "hello world") ∈ [("a", "hello world"), ("b", "bye")])
      ∧ ([("a", "hello world"), ("b", "bye")].map Prod.fst).Nodup
      ∧ (((buildEntries "r" [("a", "hello world"), ("b", "bye")]).filter
            (fun e => e.path == "a")).map (fun e => e.chunk) =
          List.range (chunks600 "hello world").length
        ∧ ((buildEntries "r" [("a", "hello world"), ("b", "bye")]).filter
            (fun e => e.path == "a")).map (fun e => e.text) =
          chunks600 "hello world") :=
  ⟨by decide, by decide,
    buildEntries_chunk_indices_contiguous "r"
      [("a", "hello world"), ("b", "bye")] "a" "hello world"
      (by decide) (by decide)⟩

/-! ### Claim C7: unreadable files never abort the directory walk -/

/-- Claim C7: walking a directory root yields one pair per regular file
(never an error, its length is the file count), and every file whose read
failed contributes the pair (path, "") — so a single unreadable file neither
aborts the walk nor makes the reader fail. -/
theorem read_files_dir_tolerates_unreadable (files : List FSFile) :
    read_files (Root.dir files) =
        Except.ok (files.map (fun f => (f.relpath, readOutcomeText f.content)))
      ∧ (files.map (fun f => (f.relpath, readOutcomeText f.content))).length =
          files.length
      ∧ ∀ f ∈ files, f.content = ReadOutcome.unreadable →
          (f.relpath, "") ∈
            files.map (fun f => (f.relpath, readOutcomeText f.content)) := by
  refine ⟨rfl, List.length_map files _, ?_⟩
  intro f hf hunread
  have hm : (f.relpath, readOutcomeText f.content) ∈
      files.map (fun f => (f.relpath, readOutcomeText f.content)) :=
    List.mem_map.mpr ⟨f, hf, rfl⟩
  rw [hunread] at hm
  exact hm

/-- Witness for claim C7: a walk over one unreadable and one readable file
yields both pairs, the unreadable one with empty text. -/
theorem read_files_dir_tolerates_unreadable_witness :
    read_files (Root.dir [⟨"a", ReadOutcome.unreadable⟩,
        ⟨"b", ReadOutcome.ok "x"⟩]) = Except.ok [("a", ""), ("b", "x")]
      ∧ ("a", "") ∈ [("a", ""), ("b", "x")] :=
  ⟨(read_files_dir_tolerates_unreadable
      [⟨"a", ReadOutcome.unreadable⟩, ⟨"b", ReadOutcome.ok "x"⟩]).1,
    (read_files_dir_tolerates_unreadable
      [⟨"a", ReadOutcome.unreadable⟩, ⟨"b", ReadOutcome.ok "x"⟩]).2.2
      ⟨"a", ReadOutcome.unreadable⟩ (by decide) rfl⟩

/-! ### Claim C8: a single-file root yields exactly one pair -/

/-- Claim C8: when the root is a single file whose read succeeds, read_files
yields exactly one (relative_path, text) pair, whose path component is the
file's own name. -/
theorem read_files_single_file (name text : String) :
    read_files (Root.file name (ReadOutcome.ok text)) =
      Except.ok [(name, text)] :=
  rfl

/-! ### Claim C9: the final report -/

/-- Counterexample for claim C9: two corpora, one with an unreadable file
and one without, produce the very same report, while their sets of skipped
files differ — so the report cannot include the files skipped due to
unreadable reads (the program prints only the entry count). -/
theorem mainMessage_ignores_skipped :
    mainMessage "repo" (Root.dir [⟨"a", ReadOutcome.unreadable⟩]) =
        mainMessage "repo" (Root.dir [⟨"a", ReadOutcome.ok ""⟩])
      ∧ skippedFiles (Root.dir [⟨"a", ReadOutcome.unreadable⟩]) ≠
          skippedFiles (Root.dir [⟨"a", ReadOutcome.ok ""⟩]) := by
  constructor
  · rfl
  · decide

/-- Claim C9 (amended): the reported final count equals the number of
entries actually written to the output; the report consists of this count
alone and does not mention files skipped due to unreadable reads. -/
theorem mainMessage_counts_entries (repo : String) (root : Root)
    (entries : List Entry) (h : mainEntries repo root = Except.ok entries) :
    mainMessage repo root =
      Except.ok ("Wrote " ++ Nat.repr entries.length ++ " entries") := by
  rw [mainMessage, h]
  rfl

/-- Witness for claim C9: an empty corpus writes zero entries and reports
exactly that count. -/
theorem mainMessage_counts_entries_witness :
    mainEntries "r" (Root.dir []) = Except.ok ([] : List Entry)
      ∧ mainMessage "r" (Root.dir []) =
          Except.ok ("Wrote " ++ Nat.repr ([] : List Entry).length ++ " entries") :=
  ⟨rfl, mainMessage_counts_entries "r" (Root.dir []) [] rfl⟩

end EmbedAllFiles
